import Mathlib

/-
  Verification of the particle-filter / Hough ball tracker in
  `motion_tracker.py` (PingPong_tracker repository).

  Shallow embedding conventions:
  * numpy float arrays over a frame are modelled with `ℚ` where the code only
    adds, multiplies, compares and divides by provably nonzero quantities, and
    with `ℝ` where `sqrt` / `exp` / the Gaussian pdf appear.
  * IEEE NaN produced by `0/0` (normalizing an all-zero histogram) is modelled
    as `Option.none`; every numpy operation propagates `none` the way float
    arithmetic propagates NaN.  This is faithful for histograms, whose entries
    are non-negative counts, so a zero sum forces every entry to be `0` and
    every normalized entry to be `0/0 = NaN`.
  * Random draws (`np.random.normal`, `np.random.uniform`) are passed in as
    explicit arguments.
  * Python's `int()` truncates toward zero; numpy basic slicing resolves a
    negative bound `i` to `n + i` (clamped below at `0`) and a non-negative
    bound to `min i n` -- both are embedded literally below.
-/

set_option maxHeartbeats 1000000

namespace PingPong

/-- Python `int()` applied to a (rational-valued) float: truncation toward
zero. -/
def py_int (q : ℚ) : ℤ := if 0 ≤ q then ⌊q⌋ else -⌊-q⌋

/-- `np.cumsum` on a 1-d array, with a running accumulator. -/
def cumsumFrom (acc : ℚ) : List ℚ → List ℚ
  | [] => []
  | x :: xs => (acc + x) :: cumsumFrom (acc + x) xs

/-- `np.cumsum(self.particle_betas)`. -/
def cumsum (l : List ℚ) : List ℚ := cumsumFrom 0 l

/-- Index of the first entry of the list satisfying `p`, if any: the model of
`np.asarray(mask).nonzero()[0][0]` guarded by `res[0].size > 0`. -/
def first_true_idx {α : Type} (p : α → Bool) : List α → Option ℕ
  | [] => none
  | x :: xs => if p x then some 0 else (first_true_idx p xs).map (· + 1)

/-- A particle state `(x, y, vx, vy)` (one column of `self.current_state`). -/
abbrev State4 := ℚ × ℚ × ℚ × ℚ

/-- `motionTracker.resample_particles`, index selection for one draw:
`res = np.asarray(randuni <= beta_cumsum).nonzero()`;
`index = res[0][0] if res[0].size > 0 else 0`. -/
def select_index (beta_cumsum : List ℚ) (randuni : ℚ) : ℕ :=
  match first_true_idx (fun c => decide (randuni ≤ c)) beta_cumsum with
  | some j => j
  | none => 0

/-- `motionTracker.resample_particles`: the prior states are copied
(`current_state_prior = self.current_state.copy()`), the cumulative weight sum
is formed once, and output slot `i` receives the full state column of the
ancestor selected by draw `us[i]`.  The draws are the per-slot
`np.random.uniform()` values. -/
def resample_particles (prior : List State4) (betas : List ℚ) (us : List ℚ) :
    List State4 :=
  us.map (fun u => prior.getD (select_index (cumsum betas) u) (0, 0, 0, 0))

/-- The fields of `self.target_ROI` that the filter uses.  Note the source
computes `width` from `r[1], r[3]` (the vertical extent of the selected
rectangle) and `height` from `r[0], r[2]` (the horizontal extent). -/
structure ROIdata where
  width : ℤ
  height : ℤ
  target_midpoint_x : ℚ
  target_midpoint_y : ℚ

/-- `motionTracker.get_ROI` geometry, for an integer rectangle
`r = (x, y, w, h)` as returned by `cv2.selectROI`:
`width = int(r[1] + r[3]) - int(r[1])`, `height = int(r[0] + r[2]) - int(r[0])`,
`target_midpoint_x = int(r[0]) + height / 2`,
`target_midpoint_y = int(r[1]) + width / 2`. -/
def get_ROI (x y w h : ℤ) : ROIdata :=
  { width := (y + h) - y
    height := (x + w) - x
    target_midpoint_x := (x : ℚ) + (((x + w) - x : ℤ) : ℚ) / 2
    target_midpoint_y := (y : ℚ) + (((y + h) - y : ℤ) : ℚ) / 2 }

/-- `np.mean` over a 1-d array: sum divided by length. -/
def np_mean (l : List ℚ) : ℚ := l.sum / l.length

/-- `motionTracker.compute_MMSE_estimate`: the estimate is
`self.current_state.mean(axis=1)` and the box is
`[mx - height/2, my - width/2, mx + height/2, my + width/2]` with
`height`/`width` taken from `self.target_ROI`.  Returns
`(mmse_estimate, mmse_estimate_box)`. -/
def compute_MMSE_estimate (states : List State4) (roi : ROIdata) :
    State4 × (ℚ × ℚ × ℚ × ℚ) :=
  let mx := np_mean (states.map (fun s => s.1))
  let my := np_mean (states.map (fun s => s.2.1))
  let mvx := np_mean (states.map (fun s => s.2.2.1))
  let mvy := np_mean (states.map (fun s => s.2.2.2))
  ((mx, my, mvx, mvy),
   (mx - (roi.height : ℚ) / 2, my - (roi.width : ℚ) / 2,
    mx + (roi.height : ℚ) / 2, my + (roi.width : ℚ) / 2))

/-- `motionTracker.propagate_particles`: `A = np.identity(4)` followed by the
assignments `A[0, 2] = dt` and `A[1, 3] = dt` (the overwritten identity entries
are `0`). -/
def A_mat (dt : ℚ) : Matrix (Fin 4) (Fin 4) ℚ :=
  Matrix.of fun i j =>
    if i = 0 ∧ j = 2 then dt
    else if i = 1 ∧ j = 3 then dt
    else (1 : Matrix (Fin 4) (Fin 4) ℚ) i j

/-- `motionTracker.compute_process_noise_variance`:
`np.diag([pos_sigma, pos_sigma, vel_sigma, vel_sigma])`. -/
def V_process_noise (pos_sigma vel_sigma : ℚ) : Matrix (Fin 4) (Fin 4) ℚ :=
  Matrix.diagonal ![pos_sigma, pos_sigma, vel_sigma, vel_sigma]

/-- `motionTracker.propagate_particles`, one particle column:
`np.dot(A, state) + np.dot(V_process_noise, z)` where `z` is the column of
fresh `np.random.normal(size=(4, N))` draws for this particle. -/
def propagate_particles (dt pos_sigma vel_sigma : ℚ) (state z : Fin 4 → ℚ) :
    Fin 4 → ℚ :=
  (A_mat dt).mulVec state + (V_process_noise pos_sigma vel_sigma).mulVec z

/- ### Helper lemmas on `cumsum` and `first_true_idx` -/

theorem cumsumFrom_length (acc : ℚ) (l : List ℚ) :
    (cumsumFrom acc l).length = l.length := by
  induction l generalizing acc with
  | nil => rfl
  | cons x xs ih => simp [cumsumFrom, ih]

theorem cumsum_length (l : List ℚ) : (cumsum l).length = l.length :=
  cumsumFrom_length 0 l

theorem first_true_idx_some {α : Type} (p : α → Bool) (d : α) :
    ∀ (l : List α) (j : ℕ), first_true_idx p l = some j →
      j < l.length ∧ p (l.getD j d) = true ∧ ∀ k, k < j → p (l.getD k d) = false
  | [], j, h => by simp [first_true_idx] at h
  | x :: xs, j, h => by
    by_cases hx : p x
    · simp [first_true_idx, hx] at h
      subst h
      refine ⟨by simp, by simpa using hx, ?_⟩
      intro k hk
      omega
    · simp [first_true_idx, hx] at h
      obtain ⟨j', hj', rfl⟩ := h
      obtain ⟨h1, h2, h3⟩ := first_true_idx_some p d xs j' hj'
      refine ⟨by simpa using h1, by simpa using h2, ?_⟩
      intro k hk
      cases k with
      | zero => simpa using hx
      | succ k' =>
        have := h3 k' (by omega)
        simpa using this

theorem first_true_idx_none {α : Type} (p : α → Bool) (d : α) :
    ∀ (l : List α), first_true_idx p l = none →
      ∀ k, k < l.length → p (l.getD k d) = false
  | [], _, k, hk => by simp at hk
  | x :: xs, h, k, hk => by
    by_cases hx : p x
    · simp [first_true_idx, hx] at h
    · simp [first_true_idx, hx] at h
      cases k with
      | zero => simpa using hx
      | succ k' =>
        have := first_true_idx_none p d xs h k' (by simpa using hk)
        simpa using this

/- ### C7: motion propagation -/

/-- C7: for every particle and every `dt`, propagation is exactly
`state' = A(dt) * state + processNoiseScale * z` with `A(dt)` the identity
except `A[0][2] = A[1][3] = dt`, and the diagonal scale applied directly to the
standard-normal draw vector `z` -- componentwise this is the affine update
below, with no clamping of position or velocity. -/
theorem propagate_particles_characterization (dt p v : ℚ) (s z : Fin 4 → ℚ) :
    propagate_particles dt p v s z =
      ![s 0 + dt * s 2 + p * z 0,
        s 1 + dt * s 3 + p * z 1,
        s 2 + v * z 2,
        s 3 + v * z 3] := by
  funext i
  fin_cases i <;>
    simp [propagate_particles, A_mat, V_process_noise, Matrix.mulVec,
      Matrix.dotProduct, Fin.sum_univ_four, Matrix.one_apply,
      Matrix.diagonal]

/- ### C4: MMSE estimator -/

/-- C4: the estimator output is the componentwise unweighted arithmetic mean of
the particle states (stated division-free: `N * mean = sum`), and the estimated
box is a rectangle centered at the estimated `(x, y)` whose extent along `x` is
the ROI rectangle's true width `w` and along `y` its true height `h` (the
`width`/`height` swap in `get_ROI` cancels the swapped use in the box
construction). -/
theorem compute_MMSE_estimate_spec (states : List State4) (x y w h : ℤ)
    (hne : states ≠ []) :
    (states.length : ℚ) * (compute_MMSE_estimate states (get_ROI x y w h)).1.1 =
      (states.map (fun s => s.1)).sum ∧
    (states.length : ℚ) * (compute_MMSE_estimate states (get_ROI x y w h)).1.2.1 =
      (states.map (fun s => s.2.1)).sum ∧
    (states.length : ℚ) * (compute_MMSE_estimate states (get_ROI x y w h)).1.2.2.1 =
      (states.map (fun s => s.2.2.1)).sum ∧
    (states.length : ℚ) * (compute_MMSE_estimate states (get_ROI x y w h)).1.2.2.2 =
      (states.map (fun s => s.2.2.2)).sum ∧
    (compute_MMSE_estimate states (get_ROI x y w h)).2.2.2.1 -
      (compute_MMSE_estimate states (get_ROI x y w h)).2.1 = (w : ℚ) ∧
    (compute_MMSE_estimate states (get_ROI x y w h)).2.2.2.2 -
      (compute_MMSE_estimate states (get_ROI x y w h)).2.2.1 = (h : ℚ) ∧
    (compute_MMSE_estimate states (get_ROI x y w h)).2.1 +
      (compute_MMSE_estimate states (get_ROI x y w h)).2.2.2.1 =
      2 * (compute_MMSE_estimate states (get_ROI x y w h)).1.1 ∧
    (compute_MMSE_estimate states (get_ROI x y w h)).2.2.1 +
      (compute_MMSE_estimate states (get_ROI x y w h)).2.2.2.2 =
      2 * (compute_MMSE_estimate states (get_ROI x y w h)).1.2.1 := by
  have hlen : (states.length : ℚ) ≠ 0 := by
    have : states.length ≠ 0 := by
      intro h0
      exact hne (List.length_eq_zero.mp h0)
    exact_mod_cast this
  have hmean : ∀ l : List ℚ, l.length = states.length →
      (states.length : ℚ) * np_mean l = l.sum := by
    intro l hl
    rw [np_mean, hl, mul_comm, div_mul_cancel₀ _ hlen]
  refine ⟨hmean _ (by simp), hmean _ (by simp), hmean _ (by simp),
    hmean _ (by simp), ?_, ?_, ?_, ?_⟩ <;>
    simp [compute_MMSE_estimate, get_ROI] <;> ring

/-- Witness for C4 at a concrete two-particle population and ROI rectangle
`(x, y, w, h) = (0, 0, 10, 20)`. -/
theorem compute_MMSE_estimate_spec_witness :
    (([((1:ℚ),2,3,4), (3,4,5,6)] : List State4).length : ℚ) *
      (compute_MMSE_estimate [(1,2,3,4), (3,4,5,6)] (get_ROI 0 0 10 20)).1.1 =
      (([((1:ℚ),2,3,4), (3,4,5,6)] : List State4).map (fun s => s.1)).sum ∧
    (([((1:ℚ),2,3,4), (3,4,5,6)] : List State4).length : ℚ) *
      (compute_MMSE_estimate [(1,2,3,4), (3,4,5,6)] (get_ROI 0 0 10 20)).1.2.1 =
      (([((1:ℚ),2,3,4), (3,4,5,6)] : List State4).map (fun s => s.2.1)).sum ∧
    (([((1:ℚ),2,3,4), (3,4,5,6)] : List State4).length : ℚ) *
      (compute_MMSE_estimate [(1,2,3,4), (3,4,5,6)] (get_ROI 0 0 10 20)).1.2.2.1 =
      (([((1:ℚ),2,3,4), (3,4,5,6)] : List State4).map (fun s => s.2.2.1)).sum ∧
    (([((1:ℚ),2,3,4), (3,4,5,6)] : List State4).length : ℚ) *
      (compute_MMSE_estimate [(1,2,3,4), (3,4,5,6)] (get_ROI 0 0 10 20)).1.2.2.2 =
      (([((1:ℚ),2,3,4), (3,4,5,6)] : List State4).map (fun s => s.2.2.2)).sum ∧
    (compute_MMSE_estimate [(1,2,3,4), (3,4,5,6)] (get_ROI 0 0 10 20)).2.2.2.1 -
      (compute_MMSE_estimate [(1,2,3,4), (3,4,5,6)] (get_ROI 0 0 10 20)).2.1 =
      ((10 : ℤ) : ℚ) ∧
    (compute_MMSE_estimate [(1,2,3,4), (3,4,5,6)] (get_ROI 0 0 10 20)).2.2.2.2 -
      (compute_MMSE_estimate [(1,2,3,4), (3,4,5,6)] (get_ROI 0 0 10 20)).2.2.1 =
      ((20 : ℤ) : ℚ) ∧
    (compute_MMSE_estimate [(1,2,3,4), (3,4,5,6)] (get_ROI 0 0 10 20)).2.1 +
      (compute_MMSE_estimate [(1,2,3,4), (3,4,5,6)] (get_ROI 0 0 10 20)).2.2.2.1 =
      2 * (compute_MMSE_estimate [(1,2,3,4), (3,4,5,6)] (get_ROI 0 0 10 20)).1.1 ∧
    (compute_MMSE_estimate [(1,2,3,4), (3,4,5,6)] (get_ROI 0 0 10 20)).2.2.1 +
      (compute_MMSE_estimate [(1,2,3,4), (3,4,5,6)] (get_ROI 0 0 10 20)).2.2.2.2 =
      2 * (compute_MMSE_estimate [(1,2,3,4), (3,4,5,6)] (get_ROI 0 0 10 20)).1.2.1 :=
  compute_MMSE_estimate_spec [(1,2,3,4), (3,4,5,6)] 0 0 10 20 (by simp)

/- ### C3: resampling -/

/-- C3: resampling preserves the population size, and each output slot `i`
receives the full 4-component pre-resampling state of the ancestor at the
smallest index whose cumulative weight is at least the draw `us[i]`, index `0`
being used when no index qualifies. -/
theorem resample_particles_spec (prior : List State4) (betas : List ℚ)
    (us : List ℚ) (i : ℕ) (hN : betas.length = prior.length)
    (hpos : 0 < prior.length) (hi : i < us.length) :
    (resample_particles prior betas us).length = us.length ∧
    (select_index (cumsum betas) (us.getD i 0) < prior.length ∧
      (resample_particles prior betas us).getD i (0, 0, 0, 0) =
        prior.getD (select_index (cumsum betas) (us.getD i 0)) (0, 0, 0, 0) ∧
      ((∃ k, k < (cumsum betas).length ∧
          us.getD i 0 ≤ (cumsum betas).getD k 0) →
        (us.getD i 0 ≤
            (cumsum betas).getD (select_index (cumsum betas) (us.getD i 0)) 0 ∧
         ∀ k, k < select_index (cumsum betas) (us.getD i 0) →
           ¬ us.getD i 0 ≤ (cumsum betas).getD k 0)) ∧
      ((∀ k, k < (cumsum betas).length →
          ¬ us.getD i 0 ≤ (cumsum betas).getD k 0) →
        select_index (cumsum betas) (us.getD i 0) = 0)) := by
  constructor
  · simp [resample_particles]
  · have hclen : (cumsum betas).length = prior.length := by
      rw [cumsum_length, hN]
    refine ⟨?_, ?_, ?_, ?_⟩
    · rw [select_index]
      cases hft : first_true_idx
          (fun c => decide (us.getD i 0 ≤ c)) (cumsum betas) with
      | none => simpa using hpos
      | some j =>
        have := (first_true_idx_some _ (0 : ℚ) _ j hft).1
        simpa [hclen] using this
    · rw [resample_particles, List.getD_eq_getElem?_getD, List.getElem?_map,
        List.getElem?_eq_getElem hi]
      simp [List.getD_eq_getElem?_getD, List.getElem?_eq_getElem hi]
    · rintro ⟨k, hk, hku⟩
      rw [select_index]
      cases hft : first_true_idx
          (fun c => decide (us.getD i 0 ≤ c)) (cumsum betas) with
      | none =>
        have hfalse := first_true_idx_none _ (0 : ℚ) _ hft k hk
        exact absurd hku (of_decide_eq_false hfalse)
      | some j =>
        obtain ⟨hj1, hj2, hj3⟩ := first_true_idx_some _ (0 : ℚ) _ j hft
        refine ⟨by simpa using hj2, ?_⟩
        intro k' hk'
        have := hj3 k' hk'
        simpa using this
    · intro hall
      rw [select_index]
      cases hft : first_true_idx
          (fun c => decide (us.getD i 0 ≤ c)) (cumsum betas) with
      | none => rfl
      | some j =>
        obtain ⟨hj1, hj2, _⟩ := first_true_idx_some _ (0 : ℚ) _ j hft
        exact absurd (by simpa using hj2) (hall j hj1)

/-- Witness for C3 at a concrete two-particle population with weights
`[1/2, 1/2]`, draws `[3/4, 1/4]`, examining output slot `0` (the draw `3/4`
selects ancestor `1`). -/
theorem resample_particles_spec_witness :
    (resample_particles [((1:ℚ),2,3,4), (5,6,7,8)] [1/2, 1/2]
        [3/4, 1/4]).length = ([(3/4 : ℚ), 1/4] : List ℚ).length ∧
    (select_index (cumsum [1/2, 1/2]) (([(3/4 : ℚ), 1/4] : List ℚ).getD 0 0) <
        ([((1:ℚ),2,3,4), (5,6,7,8)] : List State4).length ∧
      (resample_particles [((1:ℚ),2,3,4), (5,6,7,8)] [1/2, 1/2]
          [3/4, 1/4]).getD 0 (0, 0, 0, 0) =
        ([((1:ℚ),2,3,4), (5,6,7,8)] : List State4).getD
          (select_index (cumsum [1/2, 1/2])
            (([(3/4 : ℚ), 1/4] : List ℚ).getD 0 0)) (0, 0, 0, 0) ∧
      ((∃ k, k < (cumsum [(1/2 : ℚ), 1/2]).length ∧
          ([(3/4 : ℚ), 1/4] : List ℚ).getD 0 0 ≤
            (cumsum [(1/2 : ℚ), 1/2]).getD k 0) →
        (([(3/4 : ℚ), 1/4] : List ℚ).getD 0 0 ≤
            (cumsum [(1/2 : ℚ), 1/2]).getD
              (select_index (cumsum [1/2, 1/2])
                (([(3/4 : ℚ), 1/4] : List ℚ).getD 0 0)) 0 ∧
         ∀ k, k < select_index (cumsum [1/2, 1/2])
              (([(3/4 : ℚ), 1/4] : List ℚ).getD 0 0) →
           ¬ ([(3/4 : ℚ), 1/4] : List ℚ).getD 0 0 ≤
              (cumsum [(1/2 : ℚ), 1/2]).getD k 0)) ∧
      ((∀ k, k < (cumsum [(1/2 : ℚ), 1/2]).length →
          ¬ ([(3/4 : ℚ), 1/4] : List ℚ).getD 0 0 ≤
              (cumsum [(1/2 : ℚ), 1/2]).getD k 0) →
        select_index (cumsum [1/2, 1/2])
          (([(3/4 : ℚ), 1/4] : List ℚ).getD 0 0) = 0)) :=
  resample_particles_spec [(1,2,3,4), (5,6,7,8)] [1/2, 1/2] [3/4, 1/4] 0
    (by simp) (by simp) (by simp)

/- ### Histogram / likelihood model (ℝ side) -/

/-- Histogram normalization `h / h.sum(axis=0)` inside
`motionTracker.compute_hellinger_distance`, one column. -/
noncomputable def normalize_hist {B : ℕ} (h : Fin B → ℝ) : Fin B → ℝ :=
  fun k => h k / (∑ j, h j)

/-- The value `np.sqrt(1 - np.sqrt(h_measured_n * h_target_n).sum(axis=0))`
computed by `motionTracker.compute_hellinger_distance` when both histogram
sums are nonzero. -/
noncomputable def hellinger_val {B : ℕ} (h g : Fin B → ℝ) : ℝ :=
  Real.sqrt (1 - ∑ k, Real.sqrt (normalize_hist h k * normalize_hist g k))

/-- `motionTracker.compute_hellinger_distance`, one measured column against the
target histogram.  When either histogram sums to zero every normalized entry is
the float `0/0 = NaN` (histogram entries are non-negative counts, so a zero sum
forces all entries to zero), and NaN propagates through `sqrt`, the sum and the
subtraction; this NaN outcome is modelled as `none`. -/
noncomputable def compute_hellinger_distance {B : ℕ} (h g : Fin B → ℝ) :
    Option ℝ :=
  if (∑ j, h j) = 0 ∨ (∑ j, g j) = 0 then none
  else some (hellinger_val h g)

/-- `scipy.stats.norm.pdf(x, mu, sigma)`. -/
noncomputable def norm_pdf (x mu sigma : ℝ) : ℝ :=
  (1 / (sigma * Real.sqrt (2 * Real.pi))) *
    Real.exp (-((x - mu) ^ 2) / (2 * sigma ^ 2))

/-- `motionTracker.compute_particle_betas`: per-particle Hellinger distances
against the target histogram, converted to Gaussian densities
`norm.pdf(d, 0, 1 / measurement_noise_sigma)`, then divided by their sum
(`normal_density_values / normal_density_values.sum()`).  A NaN distance
(`none`) makes the sum NaN, which in float arithmetic turns every quotient NaN;
otherwise each density is divided by the (finite) sum. -/
noncomputable def compute_particle_betas {B : ℕ} (hists : List (Fin B → ℝ))
    (ref : Fin B → ℝ) (m : ℝ) : List (Option ℝ) :=
  let dens := hists.map (fun h =>
    (compute_hellinger_distance h ref).map (fun d => norm_pdf d 0 (1 / m)))
  if dens.all (fun d => d.isSome) then
    dens.map (fun d => d.map (fun v => v / (dens.map (fun d2 => d2.getD 0)).sum))
  else
    dens.map (fun _ => (none : Option ℝ))

/-- Lower edge of bin `k` for `np.histogram(-, bins=B, range=(0, 256))`. -/
def hist_bin_edge (B k : ℕ) : ℚ := 256 * k / B

/-- `np.histogram(values, bins=B, range=(0, 256))[0]`: bin `k` counts the
values `v` with `edge k ≤ v < edge (k+1)`, the last bin being closed on the
right. -/
def np_histogram (B : ℕ) (pixels : List ℚ) : Fin B → ℝ := fun k =>
  ((pixels.filter (fun v =>
      decide (hist_bin_edge B k.val ≤ v) &&
      (if k.val + 1 = B then decide (v ≤ 256)
       else decide (v < hist_bin_edge B (k.val + 1))))).length : ℝ)

/-- The pixel values of the rectangular crop
`image[r0:r1, c0:c1].ravel()` once the slice bounds have been resolved to
`r0 ≤ r1`, `c0 ≤ c1` row/column index ranges. -/
def crop_pixels (img : ℤ → ℤ → ℚ) (r0 r1 c0 c1 : ℤ) : List ℚ :=
  ((List.range (r1 - r0).toNat).map (fun i =>
    (List.range (c1 - c0).toNat).map (fun j => img (r0 + i) (c0 + j)))).flatten

/- ### Helper lemmas for the likelihood step -/

theorem norm_pdf_pos (x sigma : ℝ) (hs : 0 < sigma) : 0 < norm_pdf x 0 sigma := by
  rw [norm_pdf]
  have h2 : 0 < Real.sqrt (2 * Real.pi) := Real.sqrt_pos.mpr (by positivity)
  exact mul_pos (div_pos one_pos (mul_pos hs h2)) (Real.exp_pos _)

theorem list_sum_map_div (l : List ℝ) (s : ℝ) :
    (l.map (fun x => x / s)).sum = l.sum / s := by
  induction l with
  | nil => simp
  | cons x xs ih => simp [ih, add_div]

/-- When every histogram (and the target) has a nonzero sum, the likelihood
step reduces to literal division of each Gaussian density by the density
sum -- no branch, no fallback. -/
theorem betas_normalized {B : ℕ} (hists : List (Fin B → ℝ)) (ref : Fin B → ℝ)
    (m : ℝ) (h1 : ∀ h ∈ hists, 0 < ∑ j, h j) (h2 : 0 < ∑ j, ref j) :
    compute_particle_betas hists ref m =
      hists.map (fun h => some (norm_pdf (hellinger_val h ref) 0 (1 / m) /
        (hists.map (fun hb => norm_pdf (hellinger_val hb ref) 0 (1 / m))).sum)) := by
  have hdist : ∀ h ∈ hists, compute_hellinger_distance h ref =
      some (hellinger_val h ref) := by
    intro h hm
    rw [compute_hellinger_distance, if_neg]
    push_neg
    exact ⟨ne_of_gt (h1 h hm), ne_of_gt h2⟩
  have hdens : hists.map (fun h => (compute_hellinger_distance h ref).map
      (fun d => norm_pdf d 0 (1 / m))) =
      hists.map (fun h => some (norm_pdf (hellinger_val h ref) 0 (1 / m))) := by
    apply List.map_congr_left
    intro h hm
    rw [hdist h hm]
    rfl
  simp only [compute_particle_betas]
  rw [hdens, if_pos]
  · simp [List.map_map, Function.comp_def]
  · simp [List.all_eq_true]

/- ### C1: normalization of the Gaussian densities -/

/-- C1 (corrected): the densities are normalized by dividing each one by their
sum unconditionally; whenever every particle histogram and the target
histogram have positive sums this division is exactly what happens, and there
is no branch producing a uniform `1/N` vector (see the counterexample for the
zero/non-finite-sum case). -/
theorem compute_particle_betas_unconditional_division {B : ℕ}
    (hists : List (Fin B → ℝ)) (ref : Fin B → ℝ) (m : ℝ)
    (h1 : ∀ h ∈ hists, 0 < ∑ j, h j) (h2 : 0 < ∑ j, ref j) :
    compute_particle_betas hists ref m =
      hists.map (fun h => some (norm_pdf (hellinger_val h ref) 0 (1 / m) /
        (hists.map (fun hb => norm_pdf (hellinger_val hb ref) 0 (1 / m))).sum)) :=
  betas_normalized hists ref m h1 h2

/-- Witness for C1 at one particle with histogram `[1, 1]` against target
`[1, 1]` and `measurement_noise_sigma = 20`. -/
theorem compute_particle_betas_unconditional_division_witness :
    compute_particle_betas [![(1:ℝ), 1]] ![1, 1] 20 =
      [![(1:ℝ), 1]].map (fun h =>
        some (norm_pdf (hellinger_val h ![1, 1]) 0 (1 / 20) /
          ([![(1:ℝ), 1]].map (fun hb =>
            norm_pdf (hellinger_val hb ![1, 1]) 0 (1 / 20))).sum)) :=
  compute_particle_betas_unconditional_division [![1, 1]] ![1, 1] 20
    (by
      intro h hm
      simp only [List.mem_singleton] at hm
      subst hm
      norm_num [Fin.sum_univ_two])
    (by norm_num [Fin.sum_univ_two])

/-- C1 counterexample: with two particles whose first histogram is all-zero
(a zero-area crop), the density sum is non-finite (NaN, modelled `none`) and
the computed weight vector is the NaN vector `[none, none]`, not the uniform
distribution `[1/2, 1/2]` the claim promises. -/
theorem compute_particle_betas_no_fallback_counterexample :
    compute_particle_betas [(fun _ => 0), ![(1:ℝ), 1]] ![1, 1] 20 =
      [none, none] ∧
    compute_particle_betas [(fun _ => 0), ![(1:ℝ), 1]] ![1, 1] 20 ≠
      [some (1 / 2), some (1 / 2)] := by
  have h : compute_particle_betas [(fun _ => 0), ![(1:ℝ), 1]] ![1, 1] 20 =
      [none, none] := by
    norm_num [compute_particle_betas, compute_hellinger_distance]
  refine ⟨h, ?_⟩
  rw [h]
  simp

/- ### C5: the weight invariant after the likelihood step -/

/-- C5 (corrected): provided every particle histogram and the target histogram
have positive sums (no zero-area crop) and the measurement-noise parameter is
positive, the weights after the likelihood step form a real vector that is
non-negative and sums to exactly `1`. -/
theorem particle_betas_nonneg_sum_one {B : ℕ} (hists : List (Fin B → ℝ))
    (ref : Fin B → ℝ) (m : ℝ) (hne : hists ≠ [])
    (h1 : ∀ h ∈ hists, 0 < ∑ j, h j) (h2 : 0 < ∑ j, ref j) (hm : 0 < m) :
    ∃ ws : List ℝ, compute_particle_betas hists ref m = ws.map some ∧
      (∀ w ∈ ws, 0 ≤ w) ∧ ws.sum = 1 := by
  have hs : 0 < 1 / m := by positivity
  set S := (hists.map (fun hb => norm_pdf (hellinger_val hb ref) 0 (1 / m))).sum
    with hS
  have hSpos : 0 < S := by
    rw [hS]
    apply List.sum_pos
    · intro x hx
      simp only [List.mem_map] at hx
      obtain ⟨hb, _, rfl⟩ := hx
      exact norm_pdf_pos _ _ hs
    · simpa using hne
  refine ⟨hists.map (fun h => norm_pdf (hellinger_val h ref) 0 (1 / m) / S),
    ?_, ?_, ?_⟩
  · rw [betas_normalized hists ref m h1 h2, List.map_map]
    rfl
  · intro w hw
    simp only [List.mem_map] at hw
    obtain ⟨hb, _, rfl⟩ := hw
    exact div_nonneg (le_of_lt (norm_pdf_pos _ _ hs)) hSpos.le
  · have hmm : hists.map (fun h => norm_pdf (hellinger_val h ref) 0 (1 / m) / S) =
        (hists.map (fun hb => norm_pdf (hellinger_val hb ref) 0 (1 / m))).map
          (fun x => x / S) := by
      simp [List.map_map, Function.comp_def]
    rw [hmm, list_sum_map_div, ← hS]
    exact div_self (ne_of_gt hSpos)

/-- Witness for C5 at one particle with histogram `[1, 0]` against target
`[1, 1]` and `measurement_noise_sigma = 20`. -/
theorem particle_betas_nonneg_sum_one_witness :
    ∃ ws : List ℝ, compute_particle_betas [![(1:ℝ), 0]] ![1, 1] 20 =
        ws.map some ∧ (∀ w ∈ ws, 0 ≤ w) ∧ ws.sum = 1 :=
  particle_betas_nonneg_sum_one [![1, 0]] ![1, 1] 20 (by simp)
    (by
      intro h hm
      simp only [List.mem_singleton] at hm
      subst hm
      norm_num [Fin.sum_univ_two])
    (by norm_num [Fin.sum_univ_two])
    (by norm_num)

/-- C5 counterexample: on a frame where one particle's clipped crop is empty
(all-zero histogram `[0, 0]`), the whole weight vector -- including the slot of
the healthy particle with histogram `[1, 3]` -- becomes NaN (`none`); it is not
a non-negative real vector summing to `1`. -/
theorem particle_betas_nan_counterexample :
    compute_particle_betas [(fun _ => 0), ![(1:ℝ), 3]] ![1, 1] 20 =
      [none, none] ∧
    (compute_particle_betas [(fun _ => 0), ![(1:ℝ), 3]] ![1, 1] 20).all
      (fun b => b.isSome) = false := by
  have h : compute_particle_betas [(fun _ => 0), ![(1:ℝ), 3]] ![1, 1] 20 =
      [none, none] := by
    norm_num [compute_particle_betas, compute_hellinger_distance]
  refine ⟨h, ?_⟩
  rw [h]
  simp

/- ### C2: zero-area particle crops -/

/-- C2 counterexample: the all-zero histogram of a zero-area crop does not get
the maximal Hellinger distance `1`; its distance is the NaN value (`none`). -/
theorem zero_histogram_distance_counterexample :
    compute_hellinger_distance (fun _ : Fin 2 => (0:ℝ)) ![1, 1] = none ∧
    compute_hellinger_distance (fun _ : Fin 2 => (0:ℝ)) ![1, 1] ≠ some 1 := by
  constructor
  · simp [compute_hellinger_distance]
  · simp [compute_hellinger_distance]

/-- C2 (corrected): a bounding box whose resolved crop bounds give an empty
row or column range produces an empty pixel list, hence an all-zero histogram,
and the evaluation never faults -- but the resulting Hellinger distance is the
NaN value (`none`), not the maximal distance `1`. -/
theorem zero_area_crop_graceful {B : ℕ} (img : ℤ → ℤ → ℚ) (r0 r1 c0 c1 : ℤ)
    (ref : Fin B → ℝ) (hz : r1 ≤ r0 ∨ c1 ≤ c0) :
    crop_pixels img r0 r1 c0 c1 = [] ∧
    np_histogram B (crop_pixels img r0 r1 c0 c1) = (fun _ => 0) ∧
    compute_hellinger_distance (np_histogram B (crop_pixels img r0 r1 c0 c1))
      ref = none := by
  have hempty : crop_pixels img r0 r1 c0 c1 = [] := by
    rcases hz with hz | hz
    · rw [crop_pixels]
      have h0 : (r1 - r0).toNat = 0 := by omega
      simp [h0]
    · rw [crop_pixels]
      have h0 : (c1 - c0).toNat = 0 := by omega
      simp [h0, List.flatten_eq_nil_iff]
  have hhist : np_histogram B (crop_pixels img r0 r1 c0 c1) = (fun _ => 0) := by
    rw [hempty]
    funext k
    simp [np_histogram]
  refine ⟨hempty, hhist, ?_⟩
  rw [hhist]
  simp [compute_hellinger_distance]

/-- Witness for C2 at the concrete empty slice `image[0:0, 0:5]` with two bins
and target histogram `[1, 1]`. -/
theorem zero_area_crop_graceful_witness :
    crop_pixels (fun _ _ => 0) 0 0 0 5 = [] ∧
    np_histogram 2 (crop_pixels (fun _ _ => 0) 0 0 0 5) = (fun _ => 0) ∧
    compute_hellinger_distance (np_histogram 2 (crop_pixels (fun _ _ => 0) 0 0 0 5))
      ![1, 1] = none :=
  zero_area_crop_graceful (fun _ _ => 0) 0 0 0 5 ![1, 1] (Or.inl (by norm_num))

/- ### C6: properties of the Hellinger distance -/

theorem sqrt_mul_le_half_add {a b : ℝ} (ha : 0 ≤ a) (hb : 0 ≤ b) :
    Real.sqrt (a * b) ≤ (a + b) / 2 := by
  rw [Real.sqrt_mul ha]
  nlinarith [Real.sq_sqrt ha, Real.sq_sqrt hb, Real.sqrt_nonneg a,
    Real.sqrt_nonneg b, sq_nonneg (Real.sqrt a - Real.sqrt b)]

theorem sqrt_mul_eq_half_add {a b : ℝ} (ha : 0 ≤ a) (hb : 0 ≤ b)
    (heq : Real.sqrt (a * b) = (a + b) / 2) : a = b := by
  rw [Real.sqrt_mul ha] at heq
  have h2 : (Real.sqrt a - Real.sqrt b) ^ 2 = 0 := by
    nlinarith [Real.sq_sqrt ha, Real.sq_sqrt hb]
  have h3 : Real.sqrt a = Real.sqrt b := sub_eq_zero.mp (sq_eq_zero_iff.mp h2)
  calc a = Real.sqrt a ^ 2 := (Real.sq_sqrt ha).symm
    _ = Real.sqrt b ^ 2 := by rw [h3]
    _ = b := Real.sq_sqrt hb

/-- C6: for histograms with non-negative entries and positive sums the computed
Hellinger distance is symmetric, lies in `[0, 1]`, vanishes exactly when the
normalized histograms coincide, and equals `1` exactly when the supports are
disjoint. -/
theorem compute_hellinger_distance_props {B : ℕ} (h g : Fin B → ℝ)
    (hh : ∀ k, 0 ≤ h k) (hgk : ∀ k, 0 ≤ g k)
    (hsh : 0 < ∑ j, h j) (hsg : 0 < ∑ j, g j) :
    compute_hellinger_distance h g = compute_hellinger_distance g h ∧
    compute_hellinger_distance h g = some (hellinger_val h g) ∧
    0 ≤ hellinger_val h g ∧ hellinger_val h g ≤ 1 ∧
    (hellinger_val h g = 0 ↔ normalize_hist h = normalize_hist g) ∧
    (hellinger_val h g = 1 ↔ ∀ k, h k * g k = 0) := by
  have hna : ∀ k, 0 ≤ normalize_hist h k := fun k => div_nonneg (hh k) hsh.le
  have hnb : ∀ k, 0 ≤ normalize_hist g k := fun k => div_nonneg (hgk k) hsg.le
  have hsuma : ∑ k, normalize_hist h k = 1 := by
    simp only [normalize_hist]
    rw [← Finset.sum_div, div_self (ne_of_gt hsh)]
  have hsumb : ∑ k, normalize_hist g k = 1 := by
    simp only [normalize_hist]
    rw [← Finset.sum_div, div_self (ne_of_gt hsg)]
  have hhalf : ∑ k, (normalize_hist h k + normalize_hist g k) / 2 = 1 := by
    rw [← Finset.sum_div, Finset.sum_add_distrib, hsuma, hsumb]
    norm_num
  set s := ∑ k, Real.sqrt (normalize_hist h k * normalize_hist g k) with hs_def
  have hval : hellinger_val h g = Real.sqrt (1 - s) := by
    rw [hellinger_val, ← hs_def]
  have hs0 : 0 ≤ s := by
    rw [hs_def]
    exact Finset.sum_nonneg fun k _ => Real.sqrt_nonneg _
  have hs1 : s ≤ 1 := by
    rw [hs_def]
    calc ∑ k, Real.sqrt (normalize_hist h k * normalize_hist g k)
        ≤ ∑ k, (normalize_hist h k + normalize_hist g k) / 2 :=
          Finset.sum_le_sum fun k _ => sqrt_mul_le_half_add (hna k) (hnb k)
      _ = 1 := hhalf
  have hsome : compute_hellinger_distance h g = some (hellinger_val h g) := by
    rw [compute_hellinger_distance,
      if_neg (by push_neg; exact ⟨ne_of_gt hsh, ne_of_gt hsg⟩)]
  have hsome' : compute_hellinger_distance g h = some (hellinger_val g h) := by
    rw [compute_hellinger_distance,
      if_neg (by push_neg; exact ⟨ne_of_gt hsg, ne_of_gt hsh⟩)]
  have hvalsym : hellinger_val h g = hellinger_val g h := by
    rw [hellinger_val, hellinger_val]
    have hcomm : (∑ k, Real.sqrt (normalize_hist h k * normalize_hist g k)) =
        ∑ k, Real.sqrt (normalize_hist g k * normalize_hist h k) :=
      Finset.sum_congr rfl fun k _ => by rw [mul_comm]
    rw [hcomm]
  refine ⟨by rw [hsome, hsome', hvalsym], hsome, ?_, ?_, ?_, ?_⟩
  · rw [hval]
    exact Real.sqrt_nonneg _
  · rw [hval]
    have hle : Real.sqrt (1 - s) ≤ Real.sqrt 1 := Real.sqrt_le_sqrt (by linarith)
    simpa [Real.sqrt_one] using hle
  · rw [hval]
    constructor
    · intro h0
      have hge : 1 ≤ s := by
        have := Real.sqrt_eq_zero'.mp h0
        linarith
      have hseq : s = 1 := le_antisymm hs1 hge
      have hsum0 : ∑ k, ((normalize_hist h k + normalize_hist g k) / 2 -
          Real.sqrt (normalize_hist h k * normalize_hist g k)) = 0 := by
        rw [Finset.sum_sub_distrib, hhalf, ← hs_def, hseq, sub_self]
      have heach := (Finset.sum_eq_zero_iff_of_nonneg
        (fun k _ => by linarith [sqrt_mul_le_half_add (hna k) (hnb k)])).mp hsum0
      funext k
      have hk := heach k (Finset.mem_univ k)
      exact sqrt_mul_eq_half_add (hna k) (hnb k) (sub_eq_zero.mp hk).symm
    · intro heq
      have hseq : s = 1 := by
        rw [hs_def, heq]
        rw [show (∑ k, Real.sqrt (normalize_hist g k * normalize_hist g k)) =
            ∑ k, normalize_hist g k from
          Finset.sum_congr rfl fun k _ => Real.sqrt_mul_self (hnb k)]
        exact hsumb
      rw [hseq]
      simp
  · rw [hval]
    constructor
    · intro h1
      have hnn : (0:ℝ) ≤ 1 - s := by linarith
      have hsq := Real.sq_sqrt hnn
      rw [h1, one_pow] at hsq
      have hseq : s = 0 := by linarith
      have heach := (Finset.sum_eq_zero_iff_of_nonneg
        (fun k _ => Real.sqrt_nonneg
          (normalize_hist h k * normalize_hist g k))).mp
        (by rw [← hs_def]; exact hseq)
      intro k
      have hk := heach k (Finset.mem_univ k)
      have hab : normalize_hist h k * normalize_hist g k = 0 := by
        have hle := Real.sqrt_eq_zero'.mp hk
        have hge : 0 ≤ normalize_hist h k * normalize_hist g k :=
          mul_nonneg (hna k) (hnb k)
        linarith
      have hdiv : h k * g k / ((∑ j, h j) * (∑ j, g j)) = 0 := by
        rw [← div_mul_div_comm]
        exact hab
      rcases div_eq_zero_iff.mp hdiv with h0 | hden
      · exact h0
      · exact absurd hden (ne_of_gt (mul_pos hsh hsg))
    · intro hdis
      have hterm : ∀ k, normalize_hist h k * normalize_hist g k = 0 := by
        intro k
        rw [normalize_hist, normalize_hist]
        rw [div_mul_div_comm, hdis k, zero_div]
      have hseq : s = 0 := by
        rw [hs_def]
        apply Finset.sum_eq_zero
        intro k _
        rw [hterm k, Real.sqrt_zero]
      rw [hseq]
      simp

/-- Witness for C6 at the disjoint-support pair `[1, 0]`, `[0, 1]`. -/
theorem compute_hellinger_distance_props_witness :
    compute_hellinger_distance ![(1:ℝ), 0] ![0, 1] =
      compute_hellinger_distance ![(0:ℝ), 1] ![1, 0] ∧
    compute_hellinger_distance ![(1:ℝ), 0] ![0, 1] =
      some (hellinger_val ![(1:ℝ), 0] ![0, 1]) ∧
    0 ≤ hellinger_val ![(1:ℝ), 0] ![0, 1] ∧
    hellinger_val ![(1:ℝ), 0] ![0, 1] ≤ 1 ∧
    (hellinger_val ![(1:ℝ), 0] ![0, 1] = 0 ↔
      normalize_hist ![(1:ℝ), 0] = normalize_hist ![(0:ℝ), 1]) ∧
    (hellinger_val ![(1:ℝ), 0] ![0, 1] = 1 ↔
      ∀ k, ![(1:ℝ), 0] k * ![(0:ℝ), 1] k = 0) :=
  compute_hellinger_distance_props ![1, 0] ![0, 1]
    (by intro k; fin_cases k <;> norm_num)
    (by intro k; fin_cases k <;> norm_num)
    (by norm_num [Fin.sum_univ_two])
    (by norm_num [Fin.sum_univ_two])

/- ### C8: crop clipping semantics -/

/-- Resolution of one bound of a Python slice `a:b` (step `+1`) on an axis of
length `n`: a negative index is interpreted relative to the end of the axis
(`n + i`, clamped below at `0`); a non-negative index is clamped above at
`n`. -/
def py_slice_bound (n i : ℤ) : ℤ :=
  if i < 0 then max (n + i) 0 else min i n

/-- Index `i` lies in the resolved Python slice `a:b` of an axis of length
`n`. -/
def slice_mem (n a b i : ℤ) : Prop :=
  py_slice_bound n a ≤ i ∧ i < py_slice_bound n b

instance (n a b i : ℤ) : Decidable (slice_mem n a b i) :=
  inferInstanceAs (Decidable (_ ∧ _))

/-- `motionTracker.update_particles_histograms` box for one particle:
`[x - height/2, y - width/2, x + height/2, y + width/2]` with `height`/`width`
from `self.target_ROI`. -/
def particle_box (roi : ROIdata) (x y : ℚ) : ℚ × ℚ × ℚ × ℚ :=
  (x - (roi.height : ℚ) / 2, y - (roi.width : ℚ) / 2,
   x + (roi.height : ℚ) / 2, y + (roi.width : ℚ) / 2)

/-- Pixel `(r, c)` of an `H × W` grayscale frame belongs to the crop
`image[int(box[1]):int(box[3]), int(box[0]):int(box[2])]` taken by
`update_particles_histograms`. -/
def crop_mem (H W : ℤ) (box : ℚ × ℚ × ℚ × ℚ) (r c : ℤ) : Prop :=
  slice_mem H (py_int box.2.1) (py_int box.2.2.2) r ∧
  slice_mem W (py_int box.1) (py_int box.2.2.1) c

instance (H W : ℤ) (box : ℚ × ℚ × ℚ × ℚ) (r c : ℤ) :
    Decidable (crop_mem H W box r c) :=
  inferInstanceAs (Decidable (_ ∧ _))

/-- The region the spec claims for the crop, in its words: the intersection of
the particle's (truncated) bounding box with the image bounds
`[0, H) × [0, W)`, clipped on all four sides. -/
def box_clipped_mem (H W : ℤ) (box : ℚ × ℚ × ℚ × ℚ) (r c : ℤ) : Prop :=
  (max (py_int box.2.1) 0 ≤ r ∧ r < min (py_int box.2.2.2) H) ∧
  (max (py_int box.1) 0 ≤ c ∧ c < min (py_int box.2.2.1) W)

instance (H W : ℤ) (box : ℚ × ℚ × ℚ × ℚ) (r c : ℤ) :
    Decidable (box_clipped_mem H W box r c) :=
  inferInstanceAs (Decidable (_ ∧ _))

/-- C8 counterexample: on a `100 × 100` frame, the particle at `(25, 5)` with a
`30 × 30` ROI has box `(10, -10, 40, 20)`; the geometric intersection with the
frame contains pixel `(0, 10)`, but the numpy slice `image[-10:20, 10:40]`
resolves `-10` to row `90` and is empty, so the crop is not the
intersection. -/
theorem crop_clipping_counterexample :
    box_clipped_mem 100 100 (particle_box (get_ROI 0 0 30 30) 25 5) 0 10 ∧
    ¬ crop_mem 100 100 (particle_box (get_ROI 0 0 30 30) 25 5) 0 10 := by
  constructor
  · norm_num [box_clipped_mem, particle_box, get_ROI, py_int]
  · norm_num [crop_mem, slice_mem, py_slice_bound, particle_box, get_ROI, py_int]

/-- C8 (corrected): the crop equals the intersection of the truncated bounding
box with the image bounds whenever all four truncated box coordinates are
non-negative; a negative coordinate is instead interpreted relative to the
opposite edge of the axis (Python slice semantics), which is what the
counterexample exhibits. -/
theorem crop_clipping_nonneg (H W : ℤ) (box : ℚ × ℚ × ℚ × ℚ) (r c : ℤ)
    (h0 : 0 ≤ py_int box.1) (h1 : 0 ≤ py_int box.2.1)
    (h2 : 0 ≤ py_int box.2.2.1) (h3 : 0 ≤ py_int box.2.2.2) :
    crop_mem H W box r c ↔ box_clipped_mem H W box r c := by
  rw [crop_mem, box_clipped_mem, slice_mem, slice_mem, py_slice_bound,
    py_slice_bound, py_slice_bound, py_slice_bound]
  rw [if_neg (by omega), if_neg (by omega), if_neg (by omega), if_neg (by omega)]
  omega

/-- Witness for C8 at the fully in-frame box `(10, 10, 40, 40)` of the particle
at `(25, 25)` with a `30 × 30` ROI, at pixel `(15, 20)`. -/
theorem crop_clipping_nonneg_witness :
    crop_mem 100 100 (particle_box (get_ROI 0 0 30 30) 25 25) 15 20 ↔
      box_clipped_mem 100 100 (particle_box (get_ROI 0 0 30 30) 25 25) 15 20 :=
  crop_clipping_nonneg 100 100 (particle_box (get_ROI 0 0 30 30) 25 25) 15 20
    (by norm_num [particle_box, get_ROI, py_int])
    (by norm_num [particle_box, get_ROI, py_int])
    (by norm_num [particle_box, get_ROI, py_int])
    (by norm_num [particle_box, get_ROI, py_int])

/- ### C9: Hough candidate selection -/

/-- One iteration of the candidate loop in `motionTracker.track_ball_hough`.
The loop state is `(min_distance, new_pos, ball_radius)`; the guard is
`min_distance < 0 or np.abs(circle[2] - target_radius) < min_distance`, and --
exactly as in the source -- `min_distance` itself is never updated. -/
def hough_step (target : ℚ) (st : ℚ × (ℚ × ℚ) × ℚ) (c : ℚ × ℚ × ℚ) :
    ℚ × (ℚ × ℚ) × ℚ :=
  if st.1 < 0 ∨ |c.2.2 - target| < st.1 then (st.1, (c.1, c.2.1), c.2.2) else st

/-- The candidate-selection part of `motionTracker.track_ball_hough`:
`min_distance = -1`, `ball_radius` slot starts at `0`, `new_pos` starts at the
previous ball center (`(0, 0)` on the first frame), then the loop over the
detected circles `(x, y, radius)`.  Returns the final
`(new_pos, ball_radius)`. -/
def track_ball_hough_select (circles : List (ℚ × ℚ × ℚ)) (target : ℚ)
    (init_pos : ℚ × ℚ) : (ℚ × ℚ) × ℚ :=
  let res := circles.foldl (hough_step target) (-1, init_pos, 0)
  (res.2.1, res.2.2)

/-- C9 (code bug): with detected circles `(0,0,26)` (radius exactly the target
`26`) and `(5,5,40)`, the loop returns the last circle `(5,5)` with radius
`40`, not the strictly closer first candidate: `min_distance` stays `-1`, so
the guard fires on every iteration. -/
theorem track_ball_hough_select_takes_last :
    track_ball_hough_select [(0, 0, 26), (5, 5, 40)] 26 (0, 0) = ((5, 5), 40) ∧
    |(26 : ℚ) - 26| < |(40 : ℚ) - 26| := by
  constructor
  · norm_num [track_ball_hough_select, hough_step]
  · norm_num

/- ### C10: zero measured radius in the Hough calibration -/

/-- `PINGPONG_DIAMETER_CM = 4` from the source. -/
def PINGPONG_DIAMETER_CM : ℚ := 4

/-- Calibration in `track_ball_hough`: `cm_per_pixel = None`, then
`if self.ball_radius[...] > 0: cm_per_pixel = PINGPONG_DIAMETER_CM / (2 * r)`.
A zero radius leaves the sentinel `None`. -/
def cm_per_pixel_calc (radius : ℚ) : Option ℚ :=
  if 0 < radius then some (PINGPONG_DIAMETER_CM / (2 * radius)) else none

/-- Multiplying a Python float by `None` raises `TypeError`; the raised fault
is modelled as `Except.error ()`. -/
def py_mul_opt (x : ℚ) (y : Option ℚ) : Except Unit ℚ :=
  match y with
  | some v => Except.ok (x * v)
  | none => Except.error ()

/-- The velocity update of `track_ball_hough` for `frame_count > 0`:
`ball_center_vel = (new_pos - prev_pos) / dt * cm_per_pixel`, coordinatewise,
with `cm_per_pixel` the value left by the calibration step. -/
def hough_velocity_update (prev_pos new_pos : ℚ × ℚ) (radius dt : ℚ) :
    Except Unit (ℚ × ℚ) :=
  match py_mul_opt ((new_pos.1 - prev_pos.1) / dt) (cm_per_pixel_calc radius),
        py_mul_opt ((new_pos.2 - prev_pos.2) / dt) (cm_per_pixel_calc radius) with
  | Except.ok vx, Except.ok vy => Except.ok (vx, vy)
  | _, _ => Except.error ()

/-- C10 (code bug): a zero measured radius does leave the calibration factor as
the missing-measurement sentinel (`none`), but the velocity assignment then
multiplies a float by `None` and raises `TypeError` -- a computation fault --
instead of skipping the velocity for that frame. -/
theorem hough_zero_radius_fault :
    cm_per_pixel_calc 0 = none ∧
    hough_velocity_update (0, 0) (10, 10) 0 (1 / 25) = Except.error () := by
  constructor
  · norm_num [cm_per_pixel_calc]
  · norm_num [hough_velocity_update, py_mul_opt, cm_per_pixel_calc]

end PingPong
